import Mathlib

/-!
Verification of the gcloud-provision service (src/main.rs).

The Rust source is shallowly embedded: the filesystem is an explicit record of
query functions, the shared job store is an association list with the lookup
semantics of a hash map, and the nondeterministic outcome of the spawned
subprocess (including the race against the fixed timeout) is an explicit
`ExecOutcome` value passed to the background-job body.
-/

namespace GP

/-! ### Character-level string primitives

Rust's `str::contains`, `str::starts_with` and `str::ends_with` are embedded
as executable functions on the character lists of the strings involved. -/

/-- True when `pat` is a leading run of `l` (char-by-char equality). -/
def charsMatchAt : List Char → List Char → Bool
  | [], _ => true
  | _ :: _, [] => false
  | a :: as, b :: bs => a == b && charsMatchAt as bs

/-- True when `pat` occurs contiguously anywhere inside `l`. -/
def occursIn (pat l : List Char) : Bool :=
  (List.range (l.length + 1)).any (fun i => charsMatchAt pat (l.drop i))

/-- Embedding of Rust `str::contains` with a string pattern: literal substring
containment, never regular-expression evaluation. -/
def strContains (s pat : String) : Bool :=
  occursIn pat.toList s.toList

/-- Embedding of Rust `str::starts_with(c: char)`. -/
def strStartsWithChar (s : String) (c : Char) : Bool :=
  match s.toList with
  | [] => false
  | a :: _ => a == c

/-- Embedding of Rust `str::starts_with(pat: &str)`. -/
def strStartsWithStr (s pat : String) : Bool :=
  charsMatchAt pat.toList s.toList

/-- Embedding of Rust `str::ends_with(pat: &str)`. -/
def strEndsWithStr (s pat : String) : Bool :=
  charsMatchAt pat.toList.reverse s.toList.reverse

/-! ### Path model

`std::path` operations used by the source, embedded at the level of path
components: `Path::components` skips empty segments and non-leading `.`
segments; an absolute path carries a root component. -/

/-- Split a character list at every occurrence of `sep` (like splitting a path
string on the separator; empty segments are kept here and filtered by
`pathComponentsL`). -/
def splitChars (sep : Char) : List Char → List (List Char)
  | [] => [[]]
  | c :: cs =>
    let r := splitChars sep cs
    if c == sep then [] :: r
    else
      match r with
      | [] => [[c]]
      | h :: t => (c :: h) :: t

/-- Does the path (as characters) start with the root separator? -/
def leadsRoot (cs : List Char) : Bool :=
  match cs with
  | '/' :: _ => true
  | _ => false

/-- Does the path (as characters) start with a current-directory component? -/
def leadsCurDir (cs : List Char) : Bool :=
  match cs with
  | '.' :: '/' :: _ => true
  | ['.'] => true
  | _ => false

/-- Embedding of `Path::components`: empty and non-leading `.` segments are
dropped; a leading root or current-directory marker is kept as a component. -/
def pathComponentsL (cs : List Char) : List (List Char) :=
  let parts := (splitChars '/' cs).filter (fun c => !c.isEmpty && c != ['.'])
  if leadsRoot cs then ['/'] :: parts
  else if leadsCurDir cs then ['.'] :: parts
  else parts

/-- Component-wise list-le test used by `pathStartsWith`. -/
def listLe : List (List Char) → List (List Char) → Bool
  | [], _ => true
  | _ :: _, [] => false
  | a :: as, b :: bs => a == b && listLe as bs

/-- Embedding of `Path::starts_with`: component-wise prefixing, no
normalisation of `..` segments. -/
def pathStartsWith (p base : String) : Bool :=
  listLe (pathComponentsL base.toList) (pathComponentsL p.toList)

/-- Embedding of `PathBuf::join` (Unix): an absolute argument replaces the
base; otherwise the argument is appended after a separator. -/
def joinPath (base s : String) : String :=
  if strStartsWithChar s '/' then s
  else if base == "" then s
  else if strEndsWithStr base "/" then base ++ s
  else base ++ "/" ++ s

/-- The Allowed Script Root fixed in `main` and `AppState::default`. -/
def allowedScriptDir : String := "./allowed_scripts"

/-! ### Filesystem model

The filesystem queries the source performs, as an explicit record: existence,
regular-file test, permission bits of the metadata (or an I/O error message),
and the raw bytes of a file (or an I/O error message). -/

structure FileSystem where
  pathExists : String → Bool
  isFile : String → Bool
  metadataMode : String → Except String Nat
  readBytes : String → Except String (List Nat)

/-- Embedding of `validate_script_path` from src/main.rs: reject on a `..`
substring or a leading `/`; join onto the allowed directory and reject unless
the joined path still starts with the allowed directory; then reject a
missing path, a non-regular file, a metadata error, and a mode with no
execute bit. -/
def validate_script_path (script_path : String) (allowed_dir : String)
    (fs : FileSystem) : Except String String :=
  if strContains script_path ".." || strStartsWithChar script_path '/' then
    .error "Invalid script path: path traversal detected"
  else
    let full_path := joinPath allowed_dir script_path
    if !pathStartsWith full_path allowed_dir then
      .error "Script path outside allowed directory"
    else if !fs.pathExists full_path then
      .error "Script file does not exist"
    else if !fs.isFile full_path then
      .error "Path is not a regular file"
    else
      match fs.metadataMode full_path with
      | .error e => .error ("Failed to read file metadata: " ++ e)
      | .ok mode =>
        if Nat.land mode 0o111 == 0 then
          .error "Script is not executable"
        else
          .ok full_path

/-! ### Content scanner -/

/-- The fixed, ordered denylist from `scan_script_for_dangerous_patterns`:
each pattern (matched as a literal substring) paired with its description. -/
def dangerous_patterns : List (String × String) :=
  [("rm -rf /", "Dangerous recursive delete"),
   ("rm -rf /*", "Dangerous recursive delete"),
   (":()\x7b:|:&\x7d;:", "Fork bomb detected"),
   ("curl.*\\|.*sh", "Piped execution from web"),
   ("wget.*\\|.*sh", "Piped execution from web"),
   ("dd if=/dev/", "Direct disk access"),
   ("mkfs", "Filesystem creation"),
   ("fdisk", "Disk partitioning"),
   ("format", "Disk formatting"),
   ("/etc/passwd", "Access to password file"),
   ("sudo", "Privilege escalation"),
   ("su ", "User switching"),
   ("chmod 777", "Dangerous permission change"),
   ("chown", "Ownership change")]

/-- The `for (pattern, description) in dangerous_patterns` loop: return the
error of the first entry whose pattern occurs in the content. -/
def scanList : List (String × String) → String → Except String Unit
  | [], _ => .ok ()
  | (p, d) :: rest, content =>
    if strContains content p then
      .error ("Blocked dangerous pattern: " ++ p ++ " (" ++ d ++ ")")
    else
      scanList rest content

/-- Embedding of `scan_script_for_dangerous_patterns` from src/main.rs. -/
def scan_script_for_dangerous_patterns (script_content : String) : Except String Unit :=
  scanList dangerous_patterns script_content

/-! ### Reading a file to a string

`fs::read_to_string` reads the raw bytes and fails unless they are valid
UTF-8; the decoder below is the standard UTF-8 validation (rejecting
continuation-byte errors, overlong forms, surrogates and out-of-range code
points). -/

/-- UTF-8 decoding of a byte list; `none` exactly when the bytes are not
valid UTF-8. -/
def utf8Decode : List Nat → Option (List Char)
  | [] => some []
  | b0 :: rest =>
    if b0 < 0x80 then
      (utf8Decode rest).map (fun cs => Char.ofNat b0 :: cs)
    else if b0 < 0xC2 then
      none
    else if b0 < 0xE0 then
      match rest with
      | b1 :: rest1 =>
        if 0x80 ≤ b1 ∧ b1 < 0xC0 then
          (utf8Decode rest1).map (fun cs =>
            Char.ofNat ((b0 - 0xC0) * 0x40 + (b1 - 0x80)) :: cs)
        else none
      | [] => none
    else if b0 < 0xF0 then
      match rest with
      | b1 :: b2 :: rest2 =>
        if (0x80 ≤ b1 ∧ b1 < 0xC0) ∧ (0x80 ≤ b2 ∧ b2 < 0xC0) then
          let cp := (b0 - 0xE0) * 0x1000 + (b1 - 0x80) * 0x40 + (b2 - 0x80)
          if cp < 0x800 then none
          else if 0xD800 ≤ cp ∧ cp < 0xE000 then none
          else (utf8Decode rest2).map (fun cs => Char.ofNat cp :: cs)
        else none
      | _ => none
    else if b0 < 0xF5 then
      match rest with
      | b1 :: b2 :: b3 :: rest3 =>
        if ((0x80 ≤ b1 ∧ b1 < 0xC0) ∧ (0x80 ≤ b2 ∧ b2 < 0xC0)) ∧
            (0x80 ≤ b3 ∧ b3 < 0xC0) then
          let cp := (b0 - 0xF0) * 0x40000 + (b1 - 0x80) * 0x1000 +
            (b2 - 0x80) * 0x40 + (b3 - 0x80)
          if cp < 0x10000 then none
          else if 0x10FFFF < cp then none
          else (utf8Decode rest3).map (fun cs => Char.ofNat cp :: cs)
        else none
      | _ => none
    else none

/-- Embedding of `fs::read_to_string`: the file's bytes, decoded as UTF-8;
an I/O error keeps its message, invalid UTF-8 yields the message the Rust
standard library produces for it. -/
def read_to_string (fs : FileSystem) (path : String) : Except String String :=
  match fs.readBytes path with
  | .error e => .error e
  | .ok bs =>
    match utf8Decode bs with
    | none => .error "stream did not contain valid UTF-8"
    | some cs => .ok (String.mk cs)

/-- Embedding of `validate_script` from src/main.rs: read the whole file to a
string (prefixing any failure with "Failed to read script: ") and scan the
content against the denylist. -/
def validate_script (script_path : String) (fs : FileSystem) : Except String Unit :=
  match read_to_string fs script_path with
  | .error e => .error ("Failed to read script: " ++ e)
  | .ok script_content => scan_script_for_dangerous_patterns script_content

/-! ### Job data model -/

/-- Embedding of `JobStatus` from src/main.rs. -/
inductive JobStatus where
  | Running
  | Completed
  | Failed
  | TimedOut
deriving DecidableEq

/-- The serde `rename_all = "lowercase"` serialization of a `JobStatus`. -/
def statusSerialized : JobStatus → String
  | .Running => "running"
  | .Completed => "completed"
  | .Failed => "failed"
  | .TimedOut => "timedout"

/-- A status is terminal when it is not `Running`. -/
def isTerminal : JobStatus → Bool
  | .Running => false
  | _ => true

/-- Embedding of `JobLog` from src/main.rs. -/
structure JobLog where
  status : JobStatus
  stdout : String
  stderr : String
  exit_code : Option Int
  error_message : Option String
deriving DecidableEq

/-- Embedding of `JobLog::default`: a fresh `Running` record with empty
output and no exit code or error message. -/
def JobLog.default : JobLog :=
  { status := .Running, stdout := "", stderr := "", exit_code := none,
    error_message := none }

/-- The `HashMap<String, JobLog>` job store, embedded as an association list
with hash-map lookup semantics. -/
abbrev JobStore := List (String × JobLog)

/-- `HashMap::insert`: replace any existing record under the key. -/
def insertLog (store : JobStore) (k : String) (v : JobLog) : JobStore :=
  (k, v) :: store.filter (fun kv => kv.1 != k)

/-- `HashMap::get`: the record stored under the key, if any. -/
def getLog : JobStore → String → Option JobLog
  | [], _ => none
  | kv :: rest, k => if kv.1 == k then some kv.2 else getLog rest k

/-- Apply a sequence of later `insert` operations (arbitrary keys and
records) to a store. -/
def applyWrites (store : JobStore) (ws : List (String × JobLog)) : JobStore :=
  ws.foldl (fun acc kv => insertLog acc kv.1 kv.2) store

/-- Embedding of `AppState` from src/main.rs. -/
structure AppState where
  logs : JobStore
  allowed_script_dir : String
deriving DecidableEq

/-- Embedding of `ScriptExecutionPayload` from src/main.rs. -/
structure ScriptExecutionPayload where
  script_path : String
  args : List String
deriving DecidableEq

/-- Embedding of `ProvisionResponse` from src/main.rs. -/
structure ProvisionResponse where
  job_id : String
  status : JobStatus
deriving DecidableEq

/-- The background work detached by `tokio::spawn`: the job identifier, the
validated script path, and the raw argument list. -/
structure PendingJob where
  job_id : String
  script_path : String
  args : List String
deriving DecidableEq

/-! ### The provisioning handler -/

/-- Embedding of the synchronous part of `provision` from src/main.rs: path
validation, content validation, insertion of the `Running` placeholder, and
the response. The fresh `Uuid::new_v4` value is the `job_id` parameter; the
detached background task is returned as a `PendingJob` rather than executed.
On a validation failure the state is returned unchanged and no background
task exists. -/
def provision (fs : FileSystem) (st : AppState) (payload : ScriptExecutionPayload)
    (job_id : String) :
    (Except (Nat × String) ProvisionResponse) × AppState × Option PendingJob :=
  match validate_script_path payload.script_path st.allowed_script_dir fs with
  | .error e => (.error (400, e), st, none)
  | .ok script_path =>
    match validate_script script_path fs with
    | .error e => (.error (400, e), st, none)
    | .ok _ =>
      let st' := { st with logs := insertLog st.logs job_id JobLog.default }
      (.ok { job_id := job_id, status := .Running }, st',
        some { job_id := job_id, script_path := script_path, args := payload.args })

/-! ### The background job body -/

/-- The argument-sanitization test of the loop in the spawned task. -/
def argBad (a : String) : Bool :=
  strContains a ".." || strContains a ";" || strContains a "|"

/-- The `for arg in &args` loop: `none` when some argument fails
sanitization (the loop short-circuits there), otherwise the argument list
handed to the command. -/
def buildArgs : List String → Option (List String)
  | [] => some []
  | a :: rest =>
    if argBad a then none
    else (buildArgs rest).map (fun l => a :: l)

/-- The record written when an argument fails sanitization. -/
def invalidArgLog : JobLog :=
  { JobLog.default with
    status := .Failed,
    error_message := some "Invalid argument detected" }

/-- The wall-clock timeout of the executor: `Duration::from_secs(300)`. -/
def timeoutSeconds : Nat := 300

/-- The nondeterministic outcome of racing
`spawn_blocking(move || cmd.output())` against the fixed timeout:
the process exited (captured output, success flag and exit code of its
status), the spawn failed with an I/O error, the blocking task failed to
join, or the timeout elapsed first. -/
inductive ExecOutcome where
  | exited (stdout stderr : String) (success : Bool) (code : Option Int)
  | execError (e : String)
  | joinError
  | timedOut
deriving DecidableEq

/-- The record written for each `ExecOutcome` by the `match timeout(...)`
expression in the spawned task. -/
def execLog : ExecOutcome → JobLog
  | .exited out err success code =>
    { status := if success then .Completed else .Failed, stdout := out,
      stderr := err, exit_code := code, error_message := none }
  | .execError e =>
    { JobLog.default with
      status := .Failed,
      error_message := some ("Failed to execute script: " ++ e) }
  | .joinError =>
    { JobLog.default with
      status := .Failed,
      error_message := some "Failed to spawn blocking task" }
  | .timedOut =>
    { JobLog.default with
      status := .TimedOut,
      error_message := some "Script execution timed out after 5 minutes" }

/-- Embedding of the body of the `tokio::spawn` task in `provision`:
sanitize the arguments (writing a `Failed` record and spawning nothing on
the first violation), otherwise record the outcome of the race between the
process and the timeout. The returned flag says whether the subprocess was
spawned. -/
def runJob (p : PendingJob) (outcome : ExecOutcome) (st : AppState) :
    AppState × Bool :=
  match buildArgs p.args with
  | none =>
    ({ st with logs := insertLog st.logs p.job_id invalidArgLog }, false)
  | some _ =>
    ({ st with logs := insertLog st.logs p.job_id (execLog outcome) }, true)

/-! ### The log-retrieval handler -/

/-- True when `c` is an ASCII hexadecimal digit. -/
def isHexDigit (c : Char) : Bool :=
  ('0' ≤ c && c ≤ '9') || ('a' ≤ c && c ≤ 'f') || ('A' ≤ c && c ≤ 'F')

/-- The canonical hyphenated shape: five hex groups of sizes 8-4-4-4-12. -/
def hyphenatedUuidChars (cs : List Char) : Bool :=
  match splitChars '-' cs with
  | [a, b, c, d, e] =>
    a.length == 8 && b.length == 4 && c.length == 4 && d.length == 4 &&
      e.length == 12 && (a ++ b ++ c ++ d ++ e).all isHexDigit
  | _ => false

/-- Modelled from the uuid crate: `Uuid::parse_str` accepts the hyphenated,
simple (32 hex digits), URN-prefixed and brace-wrapped forms. -/
def uuidParseOk (s : String) : Bool :=
  let cs := s.toList
  hyphenatedUuidChars cs
  || (cs.length == 32 && cs.all isHexDigit)
  || (charsMatchAt ("urn:uuid:".toList) cs && hyphenatedUuidChars (cs.drop 9))
  || (cs.length == 38 && cs.head? == some (Char.ofNat 123) &&
        cs.getLast? == some (Char.ofNat 125) &&
        hyphenatedUuidChars ((cs.drop 1).dropLast))

/-- Embedding of `get_logs` from src/main.rs, with the shared state threaded
explicitly: reject a job id that does not parse as a UUID with 400, a
missing record with 404, and otherwise return a clone of the stored record.
The second component is the state after the handler runs. -/
def get_logs (st : AppState) (job_id : String) :
    (Except (Nat × String) JobLog) × AppState :=
  if !uuidParseOk job_id then
    (.error (400, "Invalid job ID format"), st)
  else
    match getLog st.logs job_id with
    | some log => (.ok log, st)
    | none => (.error (404, "Job not found"), st)

/-! ### Concrete fixtures used by the witnesses -/

/-- A filesystem on which every path exists as an executable regular file
whose content is empty. -/
def fsAllGood : FileSystem :=
  { pathExists := fun _ => true
    isFile := fun _ => true
    metadataMode := fun _ => .ok 0o755
    readBytes := fun _ => .ok [] }

/-- A filesystem on which every path exists as an executable regular file
whose single content byte 0xFF is not valid UTF-8. -/
def fsBadUtf8 : FileSystem :=
  { pathExists := fun _ => true
    isFile := fun _ => true
    metadataMode := fun _ => .ok 0o755
    readBytes := fun _ => .ok [255] }

/-- The initial application state: empty store, default allowed directory. -/
def st0 : AppState :=
  { logs := [], allowed_script_dir := allowedScriptDir }

/-- A concrete canonical job identifier. -/
def jidc : String := "123e4567-e89b-12d3-a456-426614174000"

/-- The state right after a successful provision of `jidc` from `st0`. -/
def st1c : AppState :=
  { st0 with logs := insertLog st0.logs jidc JobLog.default }

/-- The pending job of a concrete request carrying a bad argument. -/
def pcBadArg : PendingJob :=
  { job_id := jidc, script_path := joinPath allowedScriptDir "deploy.sh",
    args := ["a;b"] }

/-- The pending job of a concrete request carrying one good argument. -/
def pcHello : PendingJob :=
  { job_id := jidc, script_path := joinPath allowedScriptDir "deploy.sh",
    args := ["hello"] }

/-- The record of a successful run that printed "ok". -/
def completedHelloLog : JobLog :=
  { status := .Completed, stdout := "ok", stderr := "", exit_code := some 0,
    error_message := none }

/-! ### Generic facts about the string primitives -/

theorem charsMatchAt_iff (p : List Char) : ∀ l : List Char,
    charsMatchAt p l = true ↔ ∃ t, l = p ++ t := by
  induction p with
  | nil =>
    intro l
    simp [charsMatchAt]
  | cons c p ih =>
    intro l
    cases l with
    | nil =>
      simp [charsMatchAt]
    | cons d l' =>
      rw [charsMatchAt, Bool.and_eq_true, beq_iff_eq, ih]
      constructor
      · rintro ⟨rfl, t, rfl⟩
        exact ⟨t, rfl⟩
      · rintro ⟨t, ht⟩
        injection ht with h1 h2
        exact ⟨h1.symm, t, h2⟩

theorem occursIn_iff (p l : List Char) :
    occursIn p l = true ↔ ∃ a b, l = a ++ p ++ b := by
  rw [occursIn, List.any_eq_true]
  constructor
  · rintro ⟨i, _, hm⟩
    obtain ⟨t, ht⟩ := (charsMatchAt_iff p (l.drop i)).mp hm
    refine ⟨l.take i, t, ?_⟩
    conv_lhs => rw [← List.take_append_drop i l]
    rw [ht, List.append_assoc]
  · rintro ⟨a, b, rfl⟩
    refine ⟨a.length, ?_, ?_⟩
    · rw [List.mem_range]
      simp [List.length_append]
      omega
    · rw [List.append_assoc, List.drop_left]
      exact (charsMatchAt_iff p (p ++ b)).mpr ⟨b, rfl⟩

/-- `strContains` is exactly literal-substring occurrence. -/
theorem strContains_iff (s pat : String) :
    strContains s pat = true ↔ ∃ a b : List Char, s.toList = a ++ pat.toList ++ b :=
  occursIn_iff pat.toList s.toList

/-! ### Facts about the job store -/

theorem getLog_insertLog_self (s : JobStore) (k : String) (v : JobLog) :
    getLog (insertLog s k v) k = some v := by
  simp [getLog, insertLog]

theorem getLog_filter_ne (s : JobStore) (k j : String) (h : k ≠ j) :
    getLog (s.filter (fun kv => kv.1 != k)) j = getLog s j := by
  induction s with
  | nil => rfl
  | cons hd tl ih =>
    by_cases hk : hd.1 = k
    · rw [List.filter_cons, if_neg (by simp [hk])]
      rw [ih]
      have hj : (hd.1 == j) = false := by
        simp [hk]
        exact h
      simp [getLog, hj]
    · rw [List.filter_cons, if_pos (by simp [hk])]
      by_cases hj : (hd.1 == j) = true
      · simp [getLog, hj]
      · rw [Bool.not_eq_true] at hj
        simp [getLog, hj, ih]

theorem getLog_insertLog_ne (s : JobStore) (k : String) (v : JobLog) (j : String)
    (h : k ≠ j) : getLog (insertLog s k v) j = getLog s j := by
  have hkj : (k == j) = false := by
    simp
    exact h
  simp [insertLog, getLog, hkj, getLog_filter_ne s k j h]

theorem getLog_applyWrites_ne_none (s : JobStore) (ws : List (String × JobLog))
    (j : String) (h : getLog s j ≠ none) : getLog (applyWrites s ws) j ≠ none := by
  induction ws generalizing s with
  | nil => exact h
  | cons w ws ih =>
    show getLog (applyWrites (insertLog s w.1 w.2) ws) j ≠ none
    apply ih
    by_cases hk : w.1 = j
    · subst hk
      rw [getLog_insertLog_self]
      simp
    · rw [getLog_insertLog_ne _ _ _ _ hk]
      exact h

theorem insertLog_keys_nodup (s : JobStore) (k : String) (v : JobLog)
    (h : (s.map Prod.fst).Nodup) : ((insertLog s k v).map Prod.fst).Nodup := by
  unfold insertLog
  rw [List.map_cons]
  refine List.nodup_cons.mpr ⟨?_, ?_⟩
  · intro hm
    rw [List.mem_map] at hm
    obtain ⟨kv, hkv, hfst⟩ := hm
    rw [List.mem_filter] at hkv
    have h2 := hkv.2
    rw [bne_iff_ne] at h2
    exact h2 hfst
  · exact h.sublist (List.Sublist.map _ (List.filter_sublist s))

/-! ### Facts about the content scanner -/

theorem scanList_ok_iff (l : List (String × String)) (c : String) :
    scanList l c = .ok () ↔ ∀ pd ∈ l, strContains c pd.1 = false := by
  induction l with
  | nil => simp [scanList]
  | cons hd tl ih =>
    obtain ⟨p, d⟩ := hd
    by_cases h : strContains c p = true
    · simp [scanList, h]
    · rw [Bool.not_eq_true] at h
      simp [scanList, h, ih]

theorem scanList_first (l : List (String × String)) (c : String) :
    ∀ i p d, l.get? i = some (p, d) → strContains c p = true →
      (∀ pd ∈ l.take i, strContains c pd.1 = false) →
      scanList l c = .error ("Blocked dangerous pattern: " ++ p ++ " (" ++ d ++ ")") := by
  induction l with
  | nil =>
    intro i p d hg
    simp at hg
  | cons hd tl ih =>
    intro i p d hg hc hearlier
    obtain ⟨p0, d0⟩ := hd
    cases i with
    | zero =>
      simp only [List.get?_cons_zero, Option.some.injEq, Prod.mk.injEq] at hg
      obtain ⟨rfl, rfl⟩ := hg
      simp [scanList, hc]
    | succ n =>
      have h0 : strContains c p0 = false :=
        hearlier (p0, d0) (by simp [List.take_succ_cons])
      simp only [scanList, h0, Bool.false_eq_true, if_false]
      exact ih n p d (by simpa using hg) hc
        (fun pd hpd => hearlier pd (by simp [List.take_succ_cons]; right; exact hpd))

/-! ### Facts about argument sanitization -/

theorem buildArgs_eq_none_iff (args : List String) :
    buildArgs args = none ↔ ∃ a ∈ args, argBad a = true := by
  induction args with
  | nil => simp [buildArgs]
  | cons a rest ih =>
    by_cases h : argBad a = true
    · simp [buildArgs, h]
    · rw [Bool.not_eq_true] at h
      simp [buildArgs, h, ih]

theorem buildArgs_of_all_good (args : List String)
    (h : ∀ a ∈ args, argBad a = false) : buildArgs args = some args := by
  induction args with
  | nil => rfl
  | cons a rest ih =>
    have ha := h a (by simp)
    simp [buildArgs, ha, ih (fun b hb => h b (List.mem_cons_of_mem a hb))]

/-! ### Inversion of a successful provision -/

theorem provision_ok_inv (fs : FileSystem) (st : AppState)
    (payload : ScriptExecutionPayload) (jid : String) (resp : ProvisionResponse)
    (st₁ : AppState) (p : PendingJob)
    (hok : provision fs st payload jid = (.ok resp, st₁, some p)) :
    ∃ fp, validate_script_path payload.script_path st.allowed_script_dir fs = .ok fp ∧
      validate_script fp fs = .ok () ∧
      resp = { job_id := jid, status := .Running } ∧
      st₁ = { st with logs := insertLog st.logs jid JobLog.default } ∧
      p = { job_id := jid, script_path := fp, args := payload.args } := by
  unfold provision at hok
  split at hok
  · simp at hok
  next fp hval =>
    split at hok
    · simp at hok
    next u hvs =>
      cases u
      simp only [Prod.mk.injEq, Except.ok.injEq, Option.some.injEq] at hok
      obtain ⟨h1, h2, h3⟩ := hok
      exact ⟨fp, hval, hvs, h1.symm, h2.symm, h3.symm⟩

/-- **C2** (validator part). Path confinement of `validate_script_path`:
(a) every accepted path is exactly the client string joined onto the Allowed
Script Root and lies within the root according to the post-join
`starts_with` check; (b) whenever the joined path does not lie within the
root, validation rejects the request. Together: the post-join check (plus
the pattern check feeding it) catches every joined path escaping the root. -/
theorem validate_script_path_confines :
    (∀ (s : String) (fs : FileSystem) (p : String),
      validate_script_path s allowedScriptDir fs = .ok p →
        p = joinPath allowedScriptDir s ∧ pathStartsWith p allowedScriptDir = true) ∧
    (∀ (s : String) (fs : FileSystem),
      pathStartsWith (joinPath allowedScriptDir s) allowedScriptDir = false →
        ∃ e, validate_script_path s allowedScriptDir fs = .error e) := by
  constructor
  · intro s fs p h
    simp only [validate_script_path] at h
    split at h
    · exact absurd h (by simp)
    split at h
    · exact absurd h (by simp)
    next hsw =>
    have hsw' : pathStartsWith (joinPath allowedScriptDir s) allowedScriptDir = true := by
      simpa using hsw
    split at h
    · exact absurd h (by simp)
    split at h
    · exact absurd h (by simp)
    split at h
    · exact absurd h (by simp)
    split at h
    · exact absurd h (by simp)
    · injection h with h2
      exact ⟨h2.symm, h2 ▸ hsw'⟩
  · intro s fs h
    simp only [validate_script_path]
    split
    · exact ⟨_, rfl⟩
    · rw [h]
      simp

/-- **C1**. For every provisioning request whose `script_path` contains the
substring ".." or begins with "/", `provision` returns the 400 validation
failure with the traversal reason, the Job Store is returned unchanged, and
no background task exists for the request, so no job record is ever
inserted for it. -/
theorem c1_traversal_rejected (fs : FileSystem) (st : AppState)
    (payload : ScriptExecutionPayload) (jid : String)
    (h : strContains payload.script_path ".." = true ∨
      strStartsWithChar payload.script_path '/' = true) :
    provision fs st payload jid =
      (.error (400, "Invalid script path: path traversal detected"), st, none) := by
  have hv : validate_script_path payload.script_path st.allowed_script_dir fs =
      .error "Invalid script path: path traversal detected" := by
    unfold validate_script_path
    rcases h with h | h <;> rw [h] <;> simp
  unfold provision
  rw [hv]

theorem c1_traversal_rejected_witness :
    provision fsAllGood st0 { script_path := "../etc/shadow", args := [] } jidc =
      (.error (400, "Invalid script path: path traversal detected"), st0, none) :=
  c1_traversal_rejected fsAllGood st0 { script_path := "../etc/shadow", args := [] }
    jidc (Or.inl (by rfl))

/-- **C3**. The content scanner checks the fixed denylist in list order using
plain substring containment: it accepts exactly when no entry's literal text
occurs in the content; when the entry at index `i` is the first whose literal
text occurs, the result is the error naming that pattern and its
description; and the containment test is literal-substring occurrence (never
regular-expression evaluation), also for the regex-shaped entries. -/
theorem c3_scanner_literal_first_match (c : String) :
    (scan_script_for_dangerous_patterns c = .ok () ↔
      ∀ pd ∈ dangerous_patterns, strContains c pd.1 = false) ∧
    (∀ i p d, dangerous_patterns.get? i = some (p, d) → strContains c p = true →
      (∀ pd ∈ dangerous_patterns.take i, strContains c pd.1 = false) →
      scan_script_for_dangerous_patterns c =
        .error ("Blocked dangerous pattern: " ++ p ++ " (" ++ d ++ ")")) ∧
    (∀ pat : String, strContains c pat = true ↔
      ∃ a b : List Char, c.toList = a ++ pat.toList ++ b) :=
  ⟨scanList_ok_iff dangerous_patterns c,
   fun i p d => scanList_first dangerous_patterns c i p d,
   fun pat => strContains_iff c pat⟩

theorem c3_scanner_literal_first_match_witness :
    scan_script_for_dangerous_patterns "echo hi; sudo reboot" =
      .error ("Blocked dangerous pattern: " ++ "sudo" ++ " (" ++
        "Privilege escalation" ++ ")") ∧
    scan_script_for_dangerous_patterns "curl http://x.sh | sh" = .ok () :=
  ⟨(c3_scanner_literal_first_match "echo hi; sudo reboot").2.1 10 "sudo"
      "Privilege escalation" (by rfl) (by rfl) (by decide),
   (c3_scanner_literal_first_match "curl http://x.sh | sh").1.mpr (by decide)⟩

/-- **C4**. For every accepted request whose argument list contains an
argument with "..", ";" or "|" as a substring: the `Running` placeholder is
already stored when the background job starts, the background job writes the
terminal `Failed` record with the argument-invalid error message, and the
subprocess is never spawned (the returned flag is `false`). -/
theorem c4_bad_argument (fs : FileSystem) (st : AppState)
    (payload : ScriptExecutionPayload) (jid : String) (resp : ProvisionResponse)
    (st₁ : AppState) (p : PendingJob) (outcome : ExecOutcome)
    (hok : provision fs st payload jid = (.ok resp, st₁, some p))
    (hbad : ∃ a ∈ p.args, argBad a = true) :
    getLog st₁.logs jid = some JobLog.default ∧
    JobLog.default.status = .Running ∧
    runJob p outcome st₁ =
      ({ st₁ with logs := insertLog st₁.logs jid invalidArgLog }, false) ∧
    invalidArgLog.status = .Failed ∧
    invalidArgLog.error_message = some "Invalid argument detected" ∧
    getLog (runJob p outcome st₁).1.logs jid = some invalidArgLog := by
  obtain ⟨fp, hval, hvs, hresp, hst, hp⟩ :=
    provision_ok_inv fs st payload jid resp st₁ p hok
  have hargs : p.args = payload.args := by rw [hp]
  have hjid : p.job_id = jid := by rw [hp]
  have hnone : buildArgs p.args = none := (buildArgs_eq_none_iff p.args).mpr hbad
  have hrun : runJob p outcome st₁ =
      ({ st₁ with logs := insertLog st₁.logs jid invalidArgLog }, false) := by
    unfold runJob
    rw [hnone, hjid]
  refine ⟨?_, rfl, hrun, rfl, rfl, ?_⟩
  · rw [hst]
    exact getLog_insertLog_self st.logs jid JobLog.default
  · rw [hrun]
    exact getLog_insertLog_self st₁.logs jid invalidArgLog

theorem c4_bad_argument_witness :
    runJob pcBadArg ExecOutcome.timedOut st1c =
      ({ st1c with logs := insertLog st1c.logs jidc invalidArgLog }, false) :=
  (c4_bad_argument fsAllGood st0 { script_path := "deploy.sh", args := ["a;b"] }
    jidc { job_id := jidc, status := .Running } st1c pcBadArg
    ExecOutcome.timedOut (by rfl) (by decide)).2.2.1

/-- **C5**. For every job whose subprocess is spawned (all arguments pass
sanitization), the terminal record is determined by the outcome of the race
against the fixed timeout: a success exit status yields `Completed` with the
captured output and exit code; a non-success exit yields `Failed` with the
captured output and exit code and no error message; an elapsed timeout
yields `TimedOut` with the message naming the fixed 5-minute (300-second)
duration and no exit code. In each case the process was spawned (flag
`true`). -/
theorem c5_executor_outcomes (p : PendingJob) (st : AppState) (out err : String)
    (code : Option Int) (hgood : ∀ a ∈ p.args, argBad a = false) :
    runJob p (.exited out err true code) st =
      ({ st with
          logs := insertLog st.logs p.job_id
            { status := .Completed, stdout := out, stderr := err,
              exit_code := code, error_message := none } }, true) ∧
    runJob p (.exited out err false code) st =
      ({ st with
          logs := insertLog st.logs p.job_id
            { status := .Failed, stdout := out, stderr := err,
              exit_code := code, error_message := none } }, true) ∧
    runJob p .timedOut st =
      ({ st with
          logs := insertLog st.logs p.job_id
            { status := .TimedOut, stdout := "", stderr := "", exit_code := none,
              error_message := some "Script execution timed out after 5 minutes" } },
        true) ∧
    timeoutSeconds = 5 * 60 := by
  have hb := buildArgs_of_all_good p.args hgood
  refine ⟨?_, ?_, ?_, rfl⟩ <;> (unfold runJob; rw [hb]; rfl)

theorem c5_executor_outcomes_witness :
    runJob pcHello (.exited "ok" "" true (some 0)) st1c =
      ({ st1c with logs := insertLog st1c.logs jidc completedHelloLog }, true) :=
  (c5_executor_outcomes pcHello st1c "ok" "" (some 0) (by decide)).1

/-- **C6**. For every accepted request: the request handler performs exactly
one insert for the fresh identifier, the `Running` placeholder; the
background task performs exactly one further write for that identifier, and
the record it writes is terminal (never `Running`); a write under a
different key leaves the record unaffected (so interleavings of other jobs
cannot touch it); and inserting preserves at-most-one-record-per-identifier.
Hence the record transitions at most once from `Running` to a terminal
state and no non-terminal state is ever written over a terminal one. -/
theorem c6_single_transition (fs : FileSystem) (st : AppState)
    (payload : ScriptExecutionPayload) (jid : String) (resp : ProvisionResponse)
    (st₁ : AppState) (p : PendingJob)
    (hok : provision fs st payload jid = (.ok resp, st₁, some p)) :
    p.job_id = jid ∧
    st₁ = { st with logs := insertLog st.logs jid JobLog.default } ∧
    JobLog.default.status = .Running ∧
    getLog st₁.logs jid = some JobLog.default ∧
    (∀ (outcome : ExecOutcome) (st₂ : AppState), ∃ t,
      (runJob p outcome st₂).1 = { st₂ with logs := insertLog st₂.logs jid t } ∧
      isTerminal t.status = true ∧
      getLog (runJob p outcome st₂).1.logs jid = some t) ∧
    (∀ (s : JobStore) (k : String) (v : JobLog) (j : String), k ≠ j →
      getLog (insertLog s k v) j = getLog s j) ∧
    (∀ (s : JobStore) (k : String) (v : JobLog),
      (s.map Prod.fst).Nodup → ((insertLog s k v).map Prod.fst).Nodup) := by
  obtain ⟨fp, hval, hvs, hresp, hst, hp⟩ :=
    provision_ok_inv fs st payload jid resp st₁ p hok
  have hjid : p.job_id = jid := by rw [hp]
  refine ⟨hjid, hst, rfl, ?_, ?_, getLog_insertLog_ne, insertLog_keys_nodup⟩
  · rw [hst]
    exact getLog_insertLog_self st.logs jid JobLog.default
  · intro outcome st₂
    cases hb : buildArgs p.args with
    | none =>
      refine ⟨invalidArgLog, ?_, rfl, ?_⟩
      · unfold runJob
        rw [hb, hjid]
      · unfold runJob
        rw [hb, hjid]
        exact getLog_insertLog_self st₂.logs jid invalidArgLog
    | some l =>
      refine ⟨execLog outcome, ?_, ?_, ?_⟩
      · unfold runJob
        rw [hb, hjid]
      · cases outcome with
        | exited out err success code => cases success <;> rfl
        | execError e => rfl
        | joinError => rfl
        | timedOut => rfl
      · unfold runJob
        rw [hb, hjid]
        exact getLog_insertLog_self st₂.logs jid (execLog outcome)

theorem c6_single_transition_witness :
    st1c = { st0 with logs := insertLog st0.logs jidc JobLog.default } ∧
    JobLog.default.status = .Running :=
  ⟨(c6_single_transition fsAllGood st0 { script_path := "deploy.sh", args := [] }
      jidc { job_id := jidc, status := .Running } st1c
      { job_id := jidc, script_path := joinPath allowedScriptDir "deploy.sh",
        args := [] } (by rfl)).2.1,
   (c6_single_transition fsAllGood st0 { script_path := "deploy.sh", args := [] }
      jidc { job_id := jidc, status := .Running } st1c
      { job_id := jidc, script_path := joinPath allowedScriptDir "deploy.sh",
        args := [] } (by rfl)).2.2.1⟩

/-- **C7**. For every accepted request, the `Running` placeholder is in the
store component returned with the response, so a `get_logs` lookup with the
returned identifier (which parses as a UUID, as every rendered fresh
identifier does) observes the `Running` record; and after any sequence of
further store writes it still observes some record, never "not found". -/
theorem c7_running_before_response (fs : FileSystem) (st : AppState)
    (payload : ScriptExecutionPayload) (jid : String) (resp : ProvisionResponse)
    (st₁ : AppState) (p : PendingJob)
    (hok : provision fs st payload jid = (.ok resp, st₁, some p))
    (huuid : uuidParseOk jid = true) :
    resp.job_id = jid ∧
    (get_logs st₁ jid).1 = .ok JobLog.default ∧
    JobLog.default.status = .Running ∧
    (∀ ws : List (String × JobLog),
      getLog (applyWrites st₁.logs ws) jid ≠ none) ∧
    (∀ ws : List (String × JobLog),
      (get_logs { st₁ with logs := applyWrites st₁.logs ws } jid).1 ≠
        .error (404, "Job not found")) := by
  obtain ⟨fp, hval, hvs, hresp, hst, hp⟩ :=
    provision_ok_inv fs st payload jid resp st₁ p hok
  have hget : getLog st₁.logs jid = some JobLog.default := by
    rw [hst]
    exact getLog_insertLog_self st.logs jid JobLog.default
  have hne : getLog st₁.logs jid ≠ none := by
    rw [hget]
    simp
  have hws : ∀ ws : List (String × JobLog),
      getLog (applyWrites st₁.logs ws) jid ≠ none :=
    fun ws => getLog_applyWrites_ne_none st₁.logs ws jid hne
  refine ⟨by rw [hresp], ?_, rfl, hws, ?_⟩
  · simp [get_logs, huuid, hget]
  · intro ws
    obtain ⟨log, hlog⟩ := Option.ne_none_iff_exists'.mp (hws ws)
    simp [get_logs, huuid, hlog]

theorem c7_running_before_response_witness :
    (get_logs st1c jidc).1 = .ok JobLog.default :=
  (c7_running_before_response fsAllGood st0
    { script_path := "deploy.sh", args := [] } jidc
    { job_id := jidc, status := .Running } st1c
    { job_id := jidc, script_path := joinPath allowedScriptDir "deploy.sh",
      args := [] } (by rfl) (by rfl)).2.1

/-- **C8**. Every log-retrieval result is exactly one of: 400 when the job
id does not parse as a UUID; 404 when it parses but no record is stored
under it; 200 with the stored record otherwise. The serialized status of a
record is the lower-cased variant name. -/
theorem c8_logs_trichotomy (st : AppState) (jid : String) :
    (uuidParseOk jid = false →
      (get_logs st jid).1 = .error (400, "Invalid job ID format")) ∧
    (uuidParseOk jid = true → getLog st.logs jid = none →
      (get_logs st jid).1 = .error (404, "Job not found")) ∧
    (∀ log, uuidParseOk jid = true → getLog st.logs jid = some log →
      (get_logs st jid).1 = .ok log) ∧
    (statusSerialized .Running = "running" ∧
      statusSerialized .Completed = "completed" ∧
      statusSerialized .Failed = "failed" ∧
      statusSerialized .TimedOut = "timedout") := by
  refine ⟨?_, ?_, ?_, rfl, rfl, rfl, rfl⟩
  · intro h
    simp [get_logs, h]
  · intro h hn
    simp [get_logs, h, hn]
  · intro log h hl
    simp [get_logs, h, hl]

theorem c8_logs_trichotomy_witness :
    (get_logs st0 "not-a-uuid").1 = .error (400, "Invalid job ID format") ∧
    (get_logs st0 jidc).1 = .error (404, "Job not found") ∧
    (get_logs st1c jidc).1 = .ok JobLog.default :=
  ⟨(c8_logs_trichotomy st0 "not-a-uuid").1 (by rfl),
   (c8_logs_trichotomy st0 jidc).2.1 (by rfl) (by rfl),
   (c8_logs_trichotomy st1c jidc).2.2.1 JobLog.default (by rfl) (by rfl)⟩

/-- **C9**. For every request whose script path passes path validation but
whose file bytes are not valid UTF-8, the full-file read into a string
fails, so `provision` returns 400 with the read-failure message, the store
is unchanged and no background task (hence no job) is created — even though
the file exists, is regular and is executable. -/
theorem c9_invalid_utf8_rejected (fs : FileSystem) (st : AppState)
    (payload : ScriptExecutionPayload) (jid : String) (fp : String)
    (bs : List Nat)
    (hval : validate_script_path payload.script_path st.allowed_script_dir fs = .ok fp)
    (hread : fs.readBytes fp = .ok bs)
    (hutf : utf8Decode bs = none) :
    provision fs st payload jid =
      (.error (400, "Failed to read script: stream did not contain valid UTF-8"),
        st, none) := by
  have hrs : read_to_string fs fp = .error "stream did not contain valid UTF-8" := by
    unfold read_to_string
    rw [hread]
    simp only [hutf]
  have hvs : validate_script fp fs =
      .error ("Failed to read script: " ++ "stream did not contain valid UTF-8") := by
    unfold validate_script
    rw [hrs]
  unfold provision
  rw [hval]
  simp only [hvs]
  rfl

theorem c9_invalid_utf8_rejected_witness :
    provision fsBadUtf8 st0 { script_path := "deploy.sh", args := [] } jidc =
      (.error (400, "Failed to read script: stream did not contain valid UTF-8"),
        st0, none) :=
  c9_invalid_utf8_rejected fsBadUtf8 st0 { script_path := "deploy.sh", args := [] }
    jidc (joinPath allowedScriptDir "deploy.sh") [255] (by rfl) (by rfl) (by rfl)

/-- **C10**. For every store state and job id, the log-retrieval handler
leaves the application state unchanged, and a 200 result is exactly the
record stored under the identifier (a clone of it). -/
theorem c10_get_logs_pure (st : AppState) (jid : String) :
    (get_logs st jid).2 = st ∧
    (∀ log, (get_logs st jid).1 = .ok log → getLog st.logs jid = some log) := by
  constructor
  · unfold get_logs
    split
    · rfl
    · split <;> rfl
  · intro log h
    unfold get_logs at h
    split at h
    · simp at h
    · split at h
      next l heq =>
        simp at h
        rw [heq, h]
      next heq =>
        simp at h

theorem c10_get_logs_pure_witness :
    getLog st1c.logs jidc = some JobLog.default :=
  (c10_get_logs_pure st1c jidc).2 JobLog.default (by rfl)

theorem validate_script_path_confines_witness :
    (joinPath allowedScriptDir "deploy.sh" = joinPath allowedScriptDir "deploy.sh" ∧
      pathStartsWith (joinPath allowedScriptDir "deploy.sh") allowedScriptDir = true) ∧
    (∃ e, validate_script_path "/etc/shadow" allowedScriptDir fsAllGood = .error e) :=
  ⟨validate_script_path_confines.1 "deploy.sh" fsAllGood
      (joinPath allowedScriptDir "deploy.sh") (by rfl),
   validate_script_path_confines.2 "/etc/shadow" fsAllGood (by rfl)⟩

end GP
